import Mathlib

/-!
Verification development for the DocuGen AI video-creation app.

This file gives a shallow embedding, in Lean 4, of the parts of the
TypeScript sources that the documented behavioural properties talk about:

* `src/services/projectService.ts` — local-storage backed project
  persistence (`getUserProjects`, `saveProject`, `deleteProject`);
* the render-job simulator (`startRender`, `getJobStatus`,
  `simulateBackendProcessing`);
* the scene-duration heuristic of `src/services/geminiService.ts`
  (`generateScript`, `parseManualScript` and its newline-chunking fallback);
* the mock path of `src/services/stockMediaService.ts` (`searchVideos`);
* the SRT generator of the subtitle service (`generateSRT`).

Conventions of the embedding:

* JavaScript numbers are modelled as `ℚ` where fractional values occur
  (scene durations, subtitle times) and as `Nat` where the code only ever
  produces non-negative integers (render progress).  `Math.floor` on
  non-negative values is `Nat` division / `Int.floor`.
* `localStorage` is modelled as an explicit store value threaded through
  the functions; an operation that never calls `setItem` returns the
  store unchanged.
* Wall-clock readings (`Date.now()`, `toLocaleTimeString()`) are
  parameters of the embedding (`now`), since they are environment inputs.
* JS string interpolation is string concatenation; the textual rendering
  of a JS number inside a log line is modelled by Lean's `toString`.
* Asynchronous execution: the simulator mutates the job record in
  synchronous blocks separated by `await delay(...)` suspension points.
  A poll of `getJobStatus` can observe the job exactly at those points,
  so the observable behaviour is the list of job snapshots after each
  synchronous block (`renderTrace`).
-/

namespace DocuGen

/-! ## Data model (src/types.ts) -/

/-- Translation of `VideoStyle` from types.ts. -/
inductive VideoStyle where
  | documentary
  | explainer
  | educational
  | storytelling
  | news
  deriving DecidableEq

/-- Translation of `VideoDuration` from types.ts. -/
inductive VideoDuration where
  | short
  | medium
  | long
  deriving DecidableEq

/-- The `'draft' | 'processing' | 'completed'` status tag of a `Project`. -/
inductive ProjectStatus where
  | draft
  | processing
  | completed
  deriving DecidableEq

/-- The `'image' | 'video'` media-type tag of a `Scene`. -/
inductive MediaType where
  | image
  | video
  deriving DecidableEq

/-- Translation of `Scene` from types.ts; `duration` (a JS number, seconds) is `ℚ`. -/
structure Scene where
  id : String
  text : String
  duration : ℚ
  imageUrl : Option String
  mediaType : MediaType
  stockVideoUrl : Option String
  audioUrl : Option String
  visualPrompt : Option String
  isGeneratingImage : Bool
  isGeneratingAudio : Bool
  deriving DecidableEq

/-- Translation of `Project` from types.ts. -/
structure Project where
  id : String
  userId : String
  title : String
  topic : String
  inputLanguage : Option String
  language : String
  style : VideoStyle
  durationLevel : VideoDuration
  status : ProjectStatus
  createdAt : String
  updatedAt : Option String
  scenes : List Scene
  script : Option String
  fullAudioUrl : Option String
  backgroundMusicUrl : Option String
  deriving DecidableEq

/-- Translation of `Subtitle` from types.ts; `startTime`/`endTime` are seconds (`ℚ`). -/
structure Subtitle where
  id : String
  startTime : ℚ
  endTime : ℚ
  text : String
  deriving DecidableEq

/-- Translation of `RenderAssets` from types.ts: exactly the four output asset URLs. -/
structure RenderAssets where
  video1080p : String
  video720p : String
  audio : String
  subtitles : String
  deriving DecidableEq

/-- Translation of the `RenderJob` status union from types.ts. -/
inductive JobStatus where
  | queued
  | processing
  | completed
  | failed
  deriving DecidableEq

/-- Translation of `RenderJob` from types.ts. -/
structure RenderJob where
  id : String
  status : JobStatus
  progress : Nat
  currentStep : String
  logs : List String
  outputUrl : Option String
  assets : Option RenderAssets
  deriving DecidableEq

/-! ## Project persistence (src/services/projectService.ts)

The store under the single local-storage key `docugen_projects` is a JSON
array of `Project` records, modelled as a `List Project`.  Each service
function takes the current store and returns the store it leaves behind
(`getItem`/`setItem`) together with its return value. -/

abbrev ProjectStore := List Project

/-- Translation of `projectService.getUserProjects`.  `getTime` abstracts
`new Date(str).getTime()` (parsing a timestamp string to epoch
milliseconds).  The JS sort key is `a.updatedAt || a.createdAt`: the
`||` falls through to `createdAt` when `updatedAt` is `undefined` *or*
the empty string (JS falsiness).  `Array.prototype.sort` is stable and
its comparator `dateB - dateA` orders by descending key, modelled by a
stable merge sort.  The function never calls `setItem`, so the store
component of the result is the input store. -/
def getUserProjects (getTime : String → Int) (userId : String)
    (store : ProjectStore) : ProjectStore × List Project :=
  let key : Project → Int := fun p =>
    getTime (match p.updatedAt with
      | some s => if s = "" then p.createdAt else s
      | none => p.createdAt)
  (store,
    (store.filter (fun p => p.userId == userId)).mergeSort
      (fun a b => decide (key b ≤ key a)))

/-- The sort key of `getUserProjects`, named for reuse in the theorems. -/
def jsDateKey (getTime : String → Int) (p : Project) : Int :=
  getTime (match p.updatedAt with
    | some s => if s = "" then p.createdAt else s
    | none => p.createdAt)

/-- Translation of `projectService.saveProject`.  `timestamp` abstracts
`new Date().toISOString()`.  `findIdx?` is JS `findIndex` (first match);
when a project with the same id exists its `createdAt` is preserved and
the entry is replaced in place, otherwise the new record (with
`createdAt := timestamp`) is appended.  The `getD project.createdAt`
default of the existing-entry read is never used: `findIdx?` only
returns in-range indices. -/
def saveProject (project : Project) (timestamp : String)
    (store : ProjectStore) : ProjectStore × Project :=
  match store.findIdx? (fun q => q.id == project.id) with
  | some i =>
    let toSave : Project :=
      { project with
          updatedAt := some timestamp,
          createdAt := ((store[i]?).map Project.createdAt).getD project.createdAt }
    (store.set i toSave, toSave)
  | none =>
    let toSave : Project :=
      { project with updatedAt := some timestamp, createdAt := timestamp }
    (store ++ [toSave], toSave)

/-- Translation of `projectService.deleteProject`:
`allProjects.filter(p => p.id !== projectId)`. -/
def deleteProject (projectId : String) (store : ProjectStore) : ProjectStore :=
  store.filter (fun p => p.id != projectId)

/-- Concrete projects for the witnesses. -/
def wProjectA : Project :=
  { id := "p1", userId := "u1", title := "A", topic := "t",
    inputLanguage := none, language := "en", style := .documentary,
    durationLevel := .short, status := .draft, createdAt := "2024-01-01",
    updatedAt := some "2024-01-02", scenes := [], script := none,
    fullAudioUrl := none, backgroundMusicUrl := none }

/-- A second concrete project sharing `wProjectA`'s id. -/
def wProjectB : Project :=
  { wProjectA with title := "B", createdAt := "2024-02-01" }

/-- A third concrete project with a fresh id. -/
def wProjectC : Project :=
  { wProjectA with id := "p2", createdAt := "2024-03-01", updatedAt := none }

/-! ### Helper lemmas about `findIdx?` -/

theorem findIdx?_some_spec {α : Type} (p : α → Bool) :
    ∀ (l : List α) (i : Nat), l.findIdx? p = some i →
      ∃ a, l[i]? = some a ∧ p a = true := by
  intro l
  induction l with
  | nil => intro i h; simp [List.findIdx?] at h
  | cons x xs ih =>
    intro i h
    rw [List.findIdx?_cons] at h
    by_cases hx : p x = true
    · simp [hx] at h
      subst h
      exact ⟨x, by simp, hx⟩
    · simp [hx] at h
      obtain ⟨i', hi', rfl⟩ := h
      obtain ⟨a, ha, hpa⟩ := ih i' hi'
      exact ⟨a, by simpa using ha, hpa⟩

theorem findIdx?_isSome_iff {α : Type} (p : α → Bool) (l : List α) :
    (∃ a ∈ l, p a = true) ↔ (l.findIdx? p).isSome := by
  constructor
  · intro ⟨a, ha, hpa⟩
    cases h : l.findIdx? p with
    | some i => simp
    | none =>
      have := List.findIdx?_eq_none_iff.mp h a ha
      rw [this] at hpa
      exact absurd hpa (by simp)
  · intro h
    cases hidx : l.findIdx? p with
    | none => rw [hidx] at h; simp at h
    | some i =>
      obtain ⟨a, ha, hpa⟩ := findIdx?_some_spec p l i hidx
      exact ⟨a, List.getElem?_mem ha, hpa⟩

/-! ### C6: saveProject updates in place / appends -/

/-- C6.  When a stored project with the same id exists (`findIdx?` hits
index `i`), `saveProject` replaces exactly that entry: the length is
unchanged, the stored entry keeps the existing record's `createdAt`,
gets `updatedAt := timestamp`, and every other position is untouched.
When no stored project has the id, the new record (timestamped on both
fields) is appended and the length grows by exactly 1.  The last
conjunct bridges "a stored project with the same id exists" to the
`findIdx?` discriminator used by the code. -/
theorem saveProject_spec (store : ProjectStore) (p : Project) (ts : String) :
    (∀ i, store.findIdx? (fun q => q.id == p.id) = some i →
      (saveProject p ts store).1.length = store.length ∧
      (∀ e, store[i]? = some e →
        (saveProject p ts store).1[i]? =
          some { p with updatedAt := some ts, createdAt := e.createdAt }) ∧
      (∀ j, j ≠ i → (saveProject p ts store).1[j]? = store[j]?)) ∧
    (store.findIdx? (fun q => q.id == p.id) = none →
      (saveProject p ts store).1 =
        store ++ [{ p with updatedAt := some ts, createdAt := ts }] ∧
      (saveProject p ts store).1.length = store.length + 1) ∧
    ((∃ q ∈ store, q.id = p.id) ↔
      (store.findIdx? (fun q => q.id == p.id)).isSome) := by
  refine ⟨?_, ?_, ?_⟩
  · intro i hi
    obtain ⟨e, he, hpe⟩ := findIdx?_some_spec _ store i hi
    have hlen : i < store.length := by
      by_contra hlt
      rw [List.getElem?_eq_none (by omega)] at he
      exact absurd he (by simp)
    refine ⟨?_, ?_, ?_⟩
    · simp [saveProject, hi, List.length_set]
    · intro e' he'
      rw [he] at he'
      cases he'
      simp only [saveProject, hi]
      rw [List.getElem?_set_self hlen]
      simp [he]
    · intro j hj
      simp only [saveProject, hi]
      exact List.getElem?_set_ne (Ne.symm hj)
  · intro hnone
    constructor
    · simp [saveProject, hnone]
    · simp [saveProject, hnone]
  · constructor
    · intro ⟨q, hq, hid⟩
      exact (findIdx?_isSome_iff _ store).mp ⟨q, hq, by simp [hid]⟩
    · intro h
      obtain ⟨q, hq, hpq⟩ := (findIdx?_isSome_iff _ store).mpr h
      exact ⟨q, hq, by simpa using hpq⟩

/-! ### C10: getUserProjects filters, sorts descending, leaves the store -/

/-- C10.  `getUserProjects` does not touch the store, returns exactly the
stored projects whose `userId` matches (as a permutation of the filter,
so multiplicities are preserved), and the result is sorted in descending
order of `updatedAt` when present and `createdAt` otherwise.  The
hypothesis excludes a stored `updatedAt` that is the empty string: the
code's `a.updatedAt || a.createdAt` treats `""` as absent (JS
falsiness), and `new Date("")` has no integer epoch value, so the claim
only makes sense away from that degenerate timestamp. -/
theorem getUserProjects_spec (getTime : String → Int) (uid : String)
    (store : ProjectStore) (hne : ∀ p ∈ store, p.updatedAt ≠ some "") :
    (getUserProjects getTime uid store).1 = store ∧
    ((getUserProjects getTime uid store).2.Perm
      (store.filter (fun p => p.userId == uid))) ∧
    (∀ q ∈ (getUserProjects getTime uid store).2, q ∈ store ∧ q.userId = uid) ∧
    ((getUserProjects getTime uid store).2.Pairwise (fun a b =>
      getTime (b.updatedAt.getD b.createdAt) ≤
        getTime (a.updatedAt.getD a.createdAt))) := by
  have hperm : (getUserProjects getTime uid store).2.Perm
      (store.filter (fun p => p.userId == uid)) :=
    List.mergeSort_perm _ _
  have hmem : ∀ q ∈ (getUserProjects getTime uid store).2, q ∈ store ∧ q.userId = uid := by
    intro q hq
    have := hperm.mem_iff.mp hq
    rw [List.mem_filter] at this
    exact ⟨this.1, by simpa using this.2⟩
  refine ⟨rfl, hperm, hmem, ?_⟩
  have hsorted := @List.sorted_mergeSort Project
    (fun a b : Project => decide (jsDateKey getTime b ≤ jsDateKey getTime a))
    (fun a b c hab hbc => by
      simp only [decide_eq_true_eq] at *
      exact le_trans hbc hab)
    (fun a b => by
      simp only [Bool.or_eq_true, decide_eq_true_eq]
      exact le_total _ _)
    (store.filter (fun p => p.userId == uid))
  have hsorted' : (getUserProjects getTime uid store).2.Pairwise (fun a b =>
      jsDateKey getTime b ≤ jsDateKey getTime a) := by
    refine List.Pairwise.imp ?_ hsorted
    intro a b h
    simpa using h
  refine hsorted'.imp_of_mem ?_
  intro a b ha hb h
  have hkey : ∀ p ∈ (getUserProjects getTime uid store).2,
      jsDateKey getTime p = getTime (p.updatedAt.getD p.createdAt) := by
    intro p hp
    have hps : p ∈ store := (hmem p hp).1
    have hpne := hne p hps
    unfold jsDateKey
    cases hu : p.updatedAt with
    | none => rfl
    | some s =>
      have hs : s ≠ "" := by
        intro hs0
        exact hpne (by rw [hu, hs0])
      simp [hs]
  rw [hkey a ha, hkey b hb] at h
  exact h

/-- Concrete epoch abstraction for the C10 witness: the timestamp's
length stands in for its parsed epoch value. -/
def wGetTime (s : String) : Int := Int.ofNat s.length

/-- C10 witness: on the two-project store `[wProjectA, wProjectC]` (both
user `u1`, no empty `updatedAt`), the theorem's conclusions hold at the
concrete `wGetTime`. -/
theorem getUserProjects_spec_witness :
    (getUserProjects wGetTime ("u1") [wProjectA, wProjectC]).1 =
      [wProjectA, wProjectC] ∧
    ((getUserProjects wGetTime ("u1") [wProjectA, wProjectC]).2.Pairwise
      (fun a b => wGetTime (b.updatedAt.getD b.createdAt) ≤
        wGetTime (a.updatedAt.getD a.createdAt))) := by
  have h := getUserProjects_spec wGetTime ("u1") [wProjectA, wProjectC]
    (by decide)
  exact ⟨h.1, h.2.2.2⟩

/-- The record `saveProject` stores when updating `wProjectA` with
`wProjectB` at timestamp `2024-05-05`. -/
def wSavedB : Project :=
  { wProjectB with updatedAt := some "2024-05-05", createdAt := wProjectA.createdAt }

/-- The record `saveProject` stores when appending `wProjectC` at
timestamp `2024-05-05`. -/
def wSavedC : Project :=
  { wProjectC with updatedAt := some "2024-05-05", createdAt := "2024-05-05" }

/-- C6 witness: on the one-element store `[wProjectA]`, saving `wProjectB`
(same id) keeps length 1, preserves `wProjectA`'s `createdAt` and stamps
`updatedAt`; `findIdx?` misses on id `p2`, and saving `wProjectC`
appends. -/
theorem saveProject_spec_witness :
    (saveProject wProjectB "2024-05-05" [wProjectA]).1.length = 1 ∧
    (saveProject wProjectB "2024-05-05" [wProjectA]).1[0]? = some wSavedB ∧
    (saveProject wProjectC "2024-05-05" [wProjectA]).1 = [wProjectA] ++ [wSavedC] := by
  have hidx : ([wProjectA] : ProjectStore).findIdx?
      (fun q => q.id == wProjectB.id) = some 0 := by decide
  have hnone : ([wProjectA] : ProjectStore).findIdx?
      (fun q => q.id == wProjectC.id) = none := by decide
  have h1 := (saveProject_spec [wProjectA] wProjectB "2024-05-05").1 0 hidx
  have h2 := (saveProject_spec [wProjectA] wProjectC "2024-05-05").2.1 hnone
  exact ⟨h1.1, h1.2.1 wProjectA (by decide), h2.1⟩

/-! ### C9: deleteProject removes exactly the matching ids -/

/-- C9.  `deleteProject` leaves exactly the entries whose id differs from
the argument: membership is filtered on `q.id ≠ pid`, the surviving
entries form a sublist (same relative order, untouched), an id that is
absent leaves the store unchanged (and no error is possible: the
function is total), and deletion is idempotent. -/
theorem deleteProject_spec (store : ProjectStore) (pid : String) :
    (∀ q, q ∈ deleteProject pid store ↔ q ∈ store ∧ q.id ≠ pid) ∧
    (deleteProject pid store).Sublist store ∧
    ((∀ q ∈ store, q.id ≠ pid) → deleteProject pid store = store) ∧
    deleteProject pid (deleteProject pid store) = deleteProject pid store := by
  refine ⟨?_, ?_, ?_, ?_⟩
  · intro q
    simp [deleteProject, List.mem_filter, bne_iff_ne]
  · exact List.filter_sublist store
  · intro h
    refine List.filter_eq_self.mpr ?_
    intro a ha
    simpa [bne_iff_ne] using h a ha
  · simp only [deleteProject, List.filter_filter]
    simp

/-- C9 witness: deleting id `p1` from `[wProjectA, wProjectC]` keeps
exactly `wProjectC`; deleting the absent id `zz` is a no-op, and
deleting `p1` twice equals deleting it once. -/
theorem deleteProject_spec_witness :
    (wProjectC ∈ deleteProject ("p1") [wProjectA, wProjectC] ∧
      wProjectA ∉ deleteProject ("p1") [wProjectA, wProjectC]) ∧
    deleteProject ("zz") [wProjectA, wProjectC] = [wProjectA, wProjectC] ∧
    deleteProject ("p1") (deleteProject ("p1") [wProjectA, wProjectC]) =
      deleteProject ("p1") [wProjectA, wProjectC] := by
  have h := deleteProject_spec [wProjectA, wProjectC] ("p1")
  have h2 := deleteProject_spec [wProjectA, wProjectC] ("zz")
  refine ⟨⟨?_, ?_⟩, ?_, ?_⟩
  · exact (h.1 wProjectC).mpr ⟨by simp, by decide⟩
  · intro hmem
    exact absurd ((h.1 wProjectA).mp hmem).2 (by decide)
  · exact h2.2.2.1 (by decide)
  · exact h.2.2.2

/-! ## Render-job simulator (videoRenderingService)

`startRender` registers an initial `queued` job under key
`job_${Date.now()}` in the module-level `jobs` record and fires the
detached `simulateBackendProcessing` task; `getJobStatus` is a plain
key lookup.  The simulator's `update` helper sets `progress`,
`currentStep`, pushes a timestamped log line and sets
`status = 'processing'`; after the loop a final synchronous block sets
`progress = 100`, `status = 'completed'` and attaches the fixed asset
URLs.  Each `await delay(...)` is an observation point: `renderTrace`
lists the job snapshot at every such point, in order. -/

/-- One synchronous mutation block of `simulateBackendProcessing`:
either an `update(progress, step, log)` call followed by zero or more
extra `logs.push(...)` calls, or the final completion block. -/
inductive SimStep where
  | update (progress : Nat) (currentStep : String) (log : String)
      (extraLogs : List String)
  | finish (currentStep : String) (assets : RenderAssets) (outputUrl : String)
      (log : String)
  deriving DecidableEq

/-- Effect of one synchronous block on the job record. -/
def applyStep (job : RenderJob) : SimStep → RenderJob
  | .update p step log extra =>
    { job with progress := p, currentStep := step, status := .processing,
               logs := job.logs ++ log :: extra }
  | .finish step a url log =>
    { job with progress := 100, status := .completed, currentStep := step,
               assets := some a, outputUrl := some url,
               logs := job.logs ++ [log] }

/-- Status written by a block: `update` always sets `processing`, the
final block sets `completed`. -/
def stepStatus : SimStep → JobStatus
  | .update _ _ _ _ => .processing
  | .finish _ _ _ _ => .completed

/-- Progress written by a block. -/
def stepProgress : SimStep → Nat
  | .update p _ _ _ => p
  | .finish _ _ _ _ => 100

/-- Whether a block is an `update` call (everything except the final
completion block). -/
def stepIsUpdate : SimStep → Bool
  | .update _ _ _ _ => true
  | .finish _ _ _ _ => false

/-- The fixed asset URLs attached on completion.  The `audio` field is
`project.backgroundMusicUrl || <default>` (JS falsiness: `undefined` or
`""` falls back to the default Pixabay URL). -/
def mockAssets (project : Project) : RenderAssets :=
  { video1080p := "https://cdn.coverr.co/videos/coverr-cloudy-sky-2751/1080p.mp4",
    video720p := "https://cdn.coverr.co/videos/coverr-cloudy-sky-2751/1080p.mp4",
    audio :=
      match project.backgroundMusicUrl with
      | some s =>
        if s = "" then
          "https://cdn.pixabay.com/download/audio/2022/03/24/audio_14233a73df.mp3"
        else s
      | none =>
        "https://cdn.pixabay.com/download/audio/2022/03/24/audio_14233a73df.mp3",
    subtitles := "data:text/plain;charset=utf-8,1%0A00%3A00%3A00%2C500%20--%3E%2000%3A00%3A03%2C000%0AWelcome%20to%20DocuGen%20AI.%0A%0A2%0A00%3A00%3A03%2C200%20--%3E%2000%3A00%3A05%2C500%0AGenerating%20professional%20videos%20instantly." }

/-- The job record created by `startRender` before the simulation's
first timer fires: status `queued`, progress 0. -/
def initialJob (jobId : String) (project : Project) : RenderJob :=
  { id := jobId, status := .queued, progress := 0,
    currentStep := "Initializing backend engine...",
    logs := ["Received project data", "Project ID: " ++ project.id,
             "Resolution: 1080p", "Format: MP4 (H.264)"],
    outputUrl := none, assets := none }

/-- A log line prefixed with `[${new Date().toLocaleTimeString()}] `. -/
def tsLog (t msg : String) : String := "[" ++ t ++ "] " ++ msg

/-- The synchronous blocks of `simulateBackendProcessing`, in execution
order.  `now k` abstracts the wall-clock string read by the `k`-th
`update` call.  The per-scene loop contributes one block per scene with
checkpoint `45 + Math.floor(20 * (i + 1) / sceneCount)` (`Nat` division
is `Math.floor` here since everything is non-negative). -/
def simSteps (now : Nat → String) (project : Project) : List SimStep :=
  let n := project.scenes.length
  [SimStep.update 5 ("Analyzing Assets")
      (tsLog (now 0) ("Validating media assets and manifest...")) [],
   SimStep.update 15 ("Fetching Media")
      (tsLog (now 1) ("Downloading " ++ toString n ++
        " video clips/images to render node..."))
      ["Cache hit: 0 assets. Downloading all from source."],
   SimStep.update 30 ("Audio Engineering")
      (tsLog (now 2) ("Merging TTS tracks with background score..."))
      (match project.backgroundMusicUrl with
       | some s =>
         if s = "" then []
         else ["Mixing background track: " ++ s.take 30 ++ "...",
               "Applying side-chain compression to music for voice clarity."]
       | none => []),
   SimStep.update 45 ("Video Assembly")
      (tsLog (now 3) ("Initializing MoviePy engine...")) []]
  ++ project.scenes.enum.map (fun e =>
      SimStep.update (45 + 20 * (e.1 + 1) / n) ("Video Assembly")
        (tsLog (now (4 + e.1)) ("Processing Scene " ++ toString (e.1 + 1) ++
          "/" ++ toString n ++ "..."))
        ["Concatenating clip " ++ toString (e.1 + 1) ++ ": " ++
           toString e.2.duration ++ "s",
         "Applying transition: CrossFade (0.5s)"])
  ++ [SimStep.update 75 ("Generating Subtitles")
        (tsLog (now (4 + n)) ("Running Vosk speech-to-text alignment..."))
        ["Generating .srt file for burn-in..."],
      SimStep.update 85 ("Final Encoding")
        (tsLog (now (5 + n)) ("Running FFmpeg encoding pass..."))
        ["Command: ffmpeg -i temp_concat.mp4 -vf subtitles=subs.srt -c:v libx264 -preset medium -crf 23 output.mp4"],
      SimStep.update 95 ("Finalizing")
        (tsLog (now (6 + n)) ("Optimizing for web streaming (MOOV atom)...")) [],
      SimStep.finish ("Ready to Download") (mockAssets project)
        (mockAssets project).video1080p
        ("Render complete. Assets generated: 1080p, 720p, MP3, SRT.")]

/-- Job snapshots starting from `job`, observing before every block. -/
def traceFrom (job : RenderJob) : List SimStep → List RenderJob
  | [] => [job]
  | s :: steps => job :: traceFrom (applyStep job s) steps

/-- All job snapshots a poller can observe for one render job, in
order: the freshly created `queued` record, then the state after each
synchronous block of the simulation. -/
def renderTrace (now : Nat → String) (jobId : String) (project : Project) :
    List RenderJob :=
  traceFrom (initialJob jobId project) (simSteps now project)

/-! ### Trace infrastructure lemmas -/

theorem traceFrom_ne_nil (job : RenderJob) (steps : List SimStep) :
    traceFrom job steps ≠ [] := by
  cases steps <;> simp [traceFrom]

theorem traceFrom_map {β : Type} (f : RenderJob → β) (g : SimStep → β)
    (hfg : ∀ j s, f (applyStep j s) = g s) :
    ∀ (steps : List SimStep) (job : RenderJob),
      (traceFrom job steps).map f = f job :: steps.map g := by
  intro steps
  induction steps with
  | nil => intro job; simp [traceFrom]
  | cons s steps ih =>
    intro job
    simp [traceFrom, ih (applyStep job s), hfg]

theorem applyStep_status (j : RenderJob) (s : SimStep) :
    (applyStep j s).status = stepStatus s := by
  cases s <;> rfl

theorem applyStep_progress (j : RenderJob) (s : SimStep) :
    (applyStep j s).progress = stepProgress s := by
  cases s <;> rfl

theorem applyStep_assets_of_update (j : RenderJob) (s : SimStep)
    (hs : stepIsUpdate s = true) : (applyStep j s).assets = j.assets := by
  cases s with
  | update p st l e => rfl
  | finish st a u l => simp [stepIsUpdate] at hs

theorem foldl_mem_traceFrom :
    ∀ (steps : List SimStep) (job : RenderJob),
      steps.foldl applyStep job ∈ traceFrom job steps := by
  intro steps
  induction steps with
  | nil => intro job; simp [traceFrom]
  | cons s steps ih =>
    intro job
    simp only [List.foldl_cons, traceFrom]
    exact List.mem_cons_of_mem _ (ih (applyStep job s))

theorem mem_traceFrom_append (x : RenderJob) :
    ∀ (l₁ l₂ : List SimStep) (job : RenderJob),
      x ∈ traceFrom job (l₁ ++ l₂) →
      x ∈ traceFrom job l₁ ∨ x ∈ traceFrom (l₁.foldl applyStep job) l₂ := by
  intro l₁
  induction l₁ with
  | nil => intro l₂ job h; simpa using Or.inr h
  | cons s l₁ ih =>
    intro l₂ job h
    simp only [List.cons_append, traceFrom, List.mem_cons] at h
    rcases h with rfl | h
    · exact Or.inl (by simp [traceFrom])
    · rcases ih l₂ (applyStep job s) h with h' | h'
      · exact Or.inl (by simp [traceFrom, h'])
      · exact Or.inr (by simpa using h')

theorem mem_traceFrom_updates (x : RenderJob) :
    ∀ (steps : List SimStep), (∀ s ∈ steps, stepIsUpdate s = true) →
      ∀ (job : RenderJob), x ∈ traceFrom job steps →
        x.assets = job.assets ∧ (x = job ∨ x.status = .processing) := by
  intro steps
  induction steps with
  | nil =>
    intro _ job h
    simp [traceFrom] at h
    exact ⟨by rw [h], Or.inl h⟩
  | cons s steps ih =>
    intro hsteps job h
    simp only [traceFrom, List.mem_cons] at h
    rcases h with rfl | h
    · exact ⟨rfl, Or.inl rfl⟩
    · have hs : stepIsUpdate s = true := hsteps s (by simp)
      have := ih (fun s' hs' => hsteps s' (by simp [hs'])) (applyStep job s) h
      refine ⟨by rw [this.1, applyStep_assets_of_update _ _ hs], ?_⟩
      rcases this.2 with rfl | hst
      · right
        rw [applyStep_status]
        cases s with
        | update p st l e => rfl
        | finish st a u l => simp [stepIsUpdate] at hs
      · exact Or.inr hst

theorem traceFrom_getLast? (steps : List SimStep) :
    ∀ (job : RenderJob),
      (traceFrom job steps).getLast? = some (steps.foldl applyStep job) := by
  induction steps with
  | nil => intro job; simp [traceFrom]
  | cons s steps ih =>
    intro job
    have h := ih (applyStep job s)
    cases hs : steps with
    | nil => simp [traceFrom]
    | cons s2 rest =>
      rw [hs] at h
      simp only [traceFrom, List.foldl_cons, hs] at h ⊢
      rw [List.getLast?_cons_cons]
      exact h

theorem mem_of_getLast? {α : Type} {l : List α} {a : α}
    (h : l.getLast? = some a) : a ∈ l := by
  induction l with
  | nil => simp at h
  | cons x xs ih =>
    cases hxs : xs with
    | nil => simp [hxs] at h; simp [h]
    | cons y ys =>
      subst hxs
      rw [List.getLast?_cons_cons] at h
      exact List.mem_cons_of_mem _ (ih h)

theorem mem_of_head? {α : Type} {l : List α} {a : α}
    (h : l.head? = some a) : a ∈ l := by
  cases l with
  | nil => simp at h
  | cons x xs => simp at h; simp [h]

/-- The `update` blocks of the simulation (everything before the final
completion block). -/
def simStepsFront (now : Nat → String) (project : Project) : List SimStep :=
  let n := project.scenes.length
  [SimStep.update 5 ("Analyzing Assets")
      (tsLog (now 0) ("Validating media assets and manifest...")) [],
   SimStep.update 15 ("Fetching Media")
      (tsLog (now 1) ("Downloading " ++ toString n ++
        " video clips/images to render node..."))
      ["Cache hit: 0 assets. Downloading all from source."],
   SimStep.update 30 ("Audio Engineering")
      (tsLog (now 2) ("Merging TTS tracks with background score..."))
      (match project.backgroundMusicUrl with
       | some s =>
         if s = "" then []
         else ["Mixing background track: " ++ s.take 30 ++ "...",
               "Applying side-chain compression to music for voice clarity."]
       | none => []),
   SimStep.update 45 ("Video Assembly")
      (tsLog (now 3) ("Initializing MoviePy engine...")) []]
  ++ project.scenes.enum.map (fun e =>
      SimStep.update (45 + 20 * (e.1 + 1) / n) ("Video Assembly")
        (tsLog (now (4 + e.1)) ("Processing Scene " ++ toString (e.1 + 1) ++
          "/" ++ toString n ++ "..."))
        ["Concatenating clip " ++ toString (e.1 + 1) ++ ": " ++
           toString e.2.duration ++ "s",
         "Applying transition: CrossFade (0.5s)"])
  ++ [SimStep.update 75 ("Generating Subtitles")
        (tsLog (now (4 + n)) ("Running Vosk speech-to-text alignment..."))
        ["Generating .srt file for burn-in..."],
      SimStep.update 85 ("Final Encoding")
        (tsLog (now (5 + n)) ("Running FFmpeg encoding pass..."))
        ["Command: ffmpeg -i temp_concat.mp4 -vf subtitles=subs.srt -c:v libx264 -preset medium -crf 23 output.mp4"],
      SimStep.update 95 ("Finalizing")
        (tsLog (now (6 + n)) ("Optimizing for web streaming (MOOV atom)...")) []]

/-- The final completion block. -/
def finishStep (project : Project) : SimStep :=
  SimStep.finish ("Ready to Download") (mockAssets project)
    (mockAssets project).video1080p
    ("Render complete. Assets generated: 1080p, 720p, MP3, SRT.")

theorem simSteps_eq_front_finish (now : Nat → String) (project : Project) :
    simSteps now project = simStepsFront now project ++ [finishStep project] := by
  simp [simSteps, simStepsFront, finishStep]

theorem simStepsFront_updates (now : Nat → String) (project : Project) :
    ∀ s ∈ simStepsFront now project, stepIsUpdate s = true := by
  intro s hs
  simp only [simStepsFront, List.mem_append, List.mem_cons, List.mem_map,
    List.not_mem_nil, or_false] at hs
  rcases hs with (h | h) | h
  · rcases h with rfl | rfl | rfl | rfl
    all_goals rfl
  · obtain ⟨e, _, rfl⟩ := h
    rfl
  · rcases h with rfl | rfl | rfl
    all_goals rfl

theorem enum_map_fst {α β : Type} (l : List α) (g : Nat → β) :
    l.enum.map (fun e => g e.1) = (List.range l.length).map g := by
  rw [List.enum_eq_zip_range]
  have h1 : ((List.range l.length).zip l).map (fun e => g e.1) =
      (((List.range l.length).zip l).map Prod.fst).map g := by
    rw [List.map_map]
    rfl
  rw [h1, List.map_fst_zip _ _ (by simp)]

/-- The progress values written by the simulation blocks, in order. -/
theorem simSteps_map_progress (now : Nat → String) (project : Project) :
    (simSteps now project).map stepProgress =
      [5, 15, 30, 45] ++
        (List.range project.scenes.length).map
          (fun i => 45 + 20 * (i + 1) / project.scenes.length) ++
        [75, 85, 95, 100] := by
  have h := enum_map_fst project.scenes
    (fun i => 45 + 20 * (i + 1) / project.scenes.length)
  simp only [simSteps, List.map_append, List.map_cons, List.map_nil,
    List.map_map, stepProgress]
  rw [← h]
  rfl

/-- The status values written by the simulation blocks are `processing`
for every `update` and `completed` for the final block. -/
theorem stepStatus_cases (s : SimStep) :
    stepStatus s = .processing ∨ stepStatus s = .completed := by
  cases s
  · exact Or.inl rfl
  · exact Or.inr rfl

theorem traceFrom_head? (job : RenderJob) (steps : List SimStep) :
    (traceFrom job steps).head? = some job := by
  cases steps <;> rfl

/-- Monotonicity of the checkpoint sequence `0, 5, 15, 30, 45,
45 + floor(20(i+1)/n) (i < n), 75, 85, 95, 100`, for every scene count
`n` (including `n = 0`, where the loop contributes nothing). -/
theorem progress_seq_pairwise (n : Nat) :
    List.Pairwise (· ≤ ·)
      ((0 : Nat) :: ([5, 15, 30, 45] ++
        (List.range n).map (fun i => 45 + 20 * (i + 1) / n) ++
        [75, 85, 95, 100])) := by
  have hmid : ∀ x ∈ (List.range n).map (fun i => 45 + 20 * (i + 1) / n),
      45 ≤ x ∧ x ≤ 65 := by
    intro x hx
    simp only [List.mem_map, List.mem_range] at hx
    obtain ⟨i, hi, rfl⟩ := hx
    refine ⟨Nat.le_add_right _ _, ?_⟩
    have h1 : 20 * (i + 1) / n ≤ 20 * n / n :=
      Nat.div_le_div_right (by omega)
    have h2 : 20 * n / n ≤ 20 := by
      rcases Nat.eq_zero_or_pos n with rfl | hn
      · simp
      · rw [mul_comm, Nat.mul_div_cancel_left _ hn]
    omega
  rw [List.pairwise_cons]
  refine ⟨fun b _ => Nat.zero_le b, ?_⟩
  rw [List.pairwise_append]
  refine ⟨?_, by decide, ?_⟩
  · rw [List.pairwise_append]
    refine ⟨by decide, ?_, ?_⟩
    · rw [List.pairwise_map]
      refine (List.pairwise_lt_range n).imp ?_
      intro i j hij
      exact Nat.add_le_add_left (Nat.div_le_div_right (by omega)) _
    · intro a ha x hx
      have h45 := (hmid x hx).1
      have ha45 : a ≤ 45 := by fin_cases ha <;> omega
      omega
  · intro a ha b hb
    have hb75 : 75 ≤ b := by fin_cases hb <;> omega
    rcases List.mem_append.mp ha with h | h
    · have ha45 : a ≤ 45 := by fin_cases h <;> omega
      omega
    · have := (hmid a h).2
      omega

/-! ### C1: progress is monotone, reaches exactly 100 at completion -/

/-- C1.  Along the observable snapshots of any render job: progress is
pairwise non-decreasing (so any two polls, earlier and later, observe
non-decreasing values, covering the per-scene checkpoints
`45 + floor(20(i+1)/sceneCount)` for every scene count); any snapshot
with status `completed` has progress exactly 100; and the terminal
snapshot is `completed` with progress 100. -/
theorem renderTrace_progress_monotone (now : Nat → String) (jobId : String)
    (project : Project) :
    ((renderTrace now jobId project).Pairwise
      (fun a b => a.progress ≤ b.progress)) ∧
    (∀ j ∈ renderTrace now jobId project,
      j.status = .completed → j.progress = 100) ∧
    (∃ j, (renderTrace now jobId project).getLast? = some j ∧
      j.status = .completed ∧ j.progress = 100) := by
  have hmapP : (renderTrace now jobId project).map RenderJob.progress =
      (initialJob jobId project).progress ::
        (simSteps now project).map stepProgress :=
    traceFrom_map _ _ applyStep_progress _ _
  refine ⟨?_, ?_, ?_⟩
  · have hp : List.Pairwise (· ≤ ·)
        ((renderTrace now jobId project).map RenderJob.progress) := by
      rw [hmapP, simSteps_map_progress]
      exact progress_seq_pairwise project.scenes.length
    exact List.pairwise_map.mp hp
  · intro j hj hstat
    rw [renderTrace, simSteps_eq_front_finish] at hj
    rcases mem_traceFrom_append j _ _ _ hj with h | h
    · have := mem_traceFrom_updates j _ (simStepsFront_updates now project) _ h
      rcases this.2 with rfl | hproc
      · simp [initialJob] at hstat
      · rw [hproc] at hstat
        cases hstat
    · have hjlmem : (simStepsFront now project).foldl applyStep
          (initialJob jobId project) ∈ traceFrom (initialJob jobId project)
          (simStepsFront now project) := foldl_mem_traceFrom _ _
      have hjlstat := mem_traceFrom_updates _ _
        (simStepsFront_updates now project) _ hjlmem
      simp only [traceFrom, List.mem_cons, List.not_mem_nil, or_false] at h
      rcases h with rfl | rfl
      · rcases hjlstat.2 with heq | hproc
        · rw [heq] at hstat
          simp [initialJob] at hstat
        · rw [hproc] at hstat
          cases hstat
      · rfl
  · refine ⟨(simSteps now project).foldl applyStep (initialJob jobId project),
      ?_, ?_, ?_⟩
    · rw [renderTrace]
      exact traceFrom_getLast? _ _
    · rw [simSteps_eq_front_finish, List.foldl_append]
      simp only [List.foldl_cons, List.foldl_nil]
      rw [applyStep_status]
      rfl
    · rw [simSteps_eq_front_finish, List.foldl_append]
      simp only [List.foldl_cons, List.foldl_nil]
      rw [applyStep_progress]
      rfl

/-- Fixed wall clock for the render witnesses. -/
def wNow : Nat → String := fun _ => "12:00:00 PM"

/-- A concrete scene for the render witnesses. -/
def wScene : Scene :=
  { id := "s1", text := "hello world", duration := 3, imageUrl := none,
    mediaType := .image, stockVideoUrl := none, audioUrl := none,
    visualPrompt := none, isGeneratingImage := false,
    isGeneratingAudio := false }

/-- A concrete one-scene project for the render witnesses. -/
def wRenderProject : Project := { wProjectA with scenes := [wScene] }

/-- C1 witness: for the concrete one-scene project, the trace progress
is pairwise monotone and the terminal snapshot (obtained through the
theorem, whose membership and status hypotheses are discharged here) is
completed at progress 100. -/
theorem renderTrace_progress_monotone_witness :
    ((renderTrace wNow ("job_0") wRenderProject).Pairwise
      (fun a b => a.progress ≤ b.progress)) ∧
    (∃ j, (renderTrace wNow ("job_0") wRenderProject).getLast? = some j ∧
      j.progress = 100) := by
  have h := renderTrace_progress_monotone wNow ("job_0") wRenderProject
  obtain ⟨j, hj, hstat, hprog⟩ := h.2.2
  have hmem : j ∈ renderTrace wNow ("job_0") wRenderProject :=
    mem_of_getLast? hj
  have h100 := h.2.1 j hmem hstat
  exact ⟨h.1, j, hj, h100⟩

/-! ### C2: the queued → processing transition -/

theorem renderTrace_map_status (now : Nat → String) (jobId : String)
    (project : Project) :
    (renderTrace now jobId project).map RenderJob.status =
      JobStatus.queued :: (simSteps now project).map stepStatus :=
  traceFrom_map _ _ applyStep_status _ _

/-- C2 counterexample.  The claim says every observable poll of a
created job sees status `processing` (never `queued`).  But
`startRender` stores the job with `status: 'queued'` and the simulation
only sets `processing` in its first `update`, which runs after
`await delay(1000)`: the very first observable snapshot of the concrete
job has status `queued`, refuting the claim. -/
theorem startRender_immediate_processing_counterexample :
    ¬ (∀ j ∈ renderTrace wNow ("job_0") wProjectA,
        j.status ≠ JobStatus.queued) := by
  decide

/-- C2 (amended).  The job is created with status `queued` (first
observable snapshot); from the first simulation block (1 s later)
onwards every snapshot has a non-`queued` status — the second snapshot
is already `processing` — and the terminal snapshot is `completed`.
The `queued → processing` transition therefore happens at the first
timed phase of the simulation, not at creation time. -/
theorem renderTrace_queued_until_first_step (now : Nat → String)
    (jobId : String) (project : Project) :
    (renderTrace now jobId project).head? = some (initialJob jobId project) ∧
    (initialJob jobId project).status = .queued ∧
    ((renderTrace now jobId project).map RenderJob.status)[1]? =
      some .processing ∧
    (∀ j ∈ (renderTrace now jobId project).tail, j.status ≠ .queued) ∧
    (∃ j, (renderTrace now jobId project).getLast? = some j ∧
      j.status = .completed) := by
  refine ⟨traceFrom_head? _ _, rfl, ?_, ?_, ?_⟩
  · rw [renderTrace_map_status]
    simp [simSteps, stepStatus]
  · intro j hj
    have hmem : j.status ∈ ((renderTrace now jobId project).map
        RenderJob.status).tail := by
      rw [← List.map_tail]
      exact List.mem_map_of_mem _ hj
    rw [renderTrace_map_status] at hmem
    simp only [List.tail_cons, List.mem_map] at hmem
    obtain ⟨s, _, hss⟩ := hmem
    rcases stepStatus_cases s with h | h <;> rw [h] at hss <;>
      rw [← hss] <;> simp
  · refine ⟨(simSteps now project).foldl applyStep (initialJob jobId project),
      traceFrom_getLast? _ _, ?_⟩
    rw [simSteps_eq_front_finish, List.foldl_append]
    simp only [List.foldl_cons, List.foldl_nil]
    rw [applyStep_status]
    rfl

/-- C2 witness for the amended theorem: for the concrete one-scene
project, the first snapshot is the queued initial record, and the first
snapshot after it (discharging the tail-membership hypothesis) has a
non-queued status. -/
theorem renderTrace_queued_until_first_step_witness :
    (renderTrace wNow ("job_1") wRenderProject).head? =
      some (initialJob ("job_1") wRenderProject) ∧
    (∃ j, (renderTrace wNow ("job_1") wRenderProject).tail.head? = some j ∧
      j.status ≠ JobStatus.queued) := by
  have h := renderTrace_queued_until_first_step wNow ("job_1") wRenderProject
  refine ⟨h.1, ?_⟩
  have hhead : (renderTrace wNow ("job_1") wRenderProject).tail.head? =
      some (((renderTrace wNow ("job_1") wRenderProject).tail.head?).getD
        (initialJob ("job_1") wRenderProject)) := by decide
  exact ⟨_, hhead, h.2.2.2.1 _ (mem_of_head? hhead)⟩

/-! ### C4: assets attached exactly at completion -/

/-- C4.  Along the observable snapshots of a render job, the `assets`
field is populated exactly when the status is `completed`: every
non-terminal snapshot has `assets` absent, and the completed snapshot
carries `mockAssets project` — a record with exactly the four fields
`video1080p`, `video720p`, `audio`, `subtitles` (the `RenderAssets`
structure) — together with progress 100. -/
theorem renderTrace_assets_iff_completed (now : Nat → String)
    (jobId : String) (project : Project) :
    ∀ j ∈ renderTrace now jobId project,
      (j.status = .completed →
        j.assets = some (mockAssets project) ∧ j.progress = 100) ∧
      (j.status ≠ .completed → j.assets = none) := by
  intro j hj
  rw [renderTrace, simSteps_eq_front_finish] at hj
  rcases mem_traceFrom_append j _ _ _ hj with h | h
  · have hu := mem_traceFrom_updates j _
      (simStepsFront_updates now project) _ h
    have hassets : j.assets = none := by rw [hu.1]; rfl
    refine ⟨?_, fun _ => hassets⟩
    intro hstat
    rcases hu.2 with rfl | hproc
    · simp [initialJob] at hstat
    · rw [hproc] at hstat
      cases hstat
  · have hjlmem : (simStepsFront now project).foldl applyStep
        (initialJob jobId project) ∈ traceFrom (initialJob jobId project)
        (simStepsFront now project) := foldl_mem_traceFrom _ _
    have hu := mem_traceFrom_updates _ _
      (simStepsFront_updates now project) _ hjlmem
    simp only [traceFrom, List.mem_cons, List.not_mem_nil, or_false] at h
    rcases h with rfl | rfl
    · have hassets : ((simStepsFront now project).foldl applyStep
          (initialJob jobId project)).assets = none := by rw [hu.1]; rfl
      refine ⟨?_, fun _ => hassets⟩
      intro hstat
      rcases hu.2 with heq | hproc
      · rw [heq] at hstat
        simp [initialJob] at hstat
      · rw [hproc] at hstat
        cases hstat
    · refine ⟨fun _ => ⟨?_, rfl⟩, fun hne => absurd rfl hne⟩
      rfl

set_option maxRecDepth 10000 in
/-- C4 witness: for the concrete one-scene project, the terminal
snapshot (membership and completed status discharged concretely) holds
exactly the four mock asset URLs and progress 100. -/
theorem renderTrace_assets_iff_completed_witness :
    ∃ j, (renderTrace wNow ("job_2") wRenderProject).getLast? = some j ∧
      j.assets = some (mockAssets wRenderProject) ∧ j.progress = 100 := by
  have hlast : (renderTrace wNow ("job_2") wRenderProject).getLast? =
      some (((renderTrace wNow ("job_2") wRenderProject).getLast?).getD
        (initialJob ("job_2") wRenderProject)) := by decide
  refine ⟨_, hlast, ?_⟩
  have hmem := mem_of_getLast? hlast
  have hstat : (((renderTrace wNow ("job_2") wRenderProject).getLast?).getD
      (initialJob ("job_2") wRenderProject)).status = JobStatus.completed := by
    decide
  exact (renderTrace_assets_iff_completed wNow ("job_2") wRenderProject
    _ hmem).1 hstat

/-! ### C3: getJobStatus lookup contract

The module-level `jobs: Record<string, RenderJob>` object is modelled
as an association list keyed by job id; JS property assignment
(`jobs[jobId] = ...`) replaces a present key in place and appends an
absent one, and `jobs[jobId]` evaluates to `undefined` (here: `none`)
for an absent key — it cannot throw. -/

abbrev JobStore := List (String × RenderJob)

/-- JS object property write `store[k] = v`. -/
def jsSetKey (store : JobStore) (k : String) (v : RenderJob) : JobStore :=
  if store.any (fun e => e.1 == k) then
    store.map (fun e => if e.1 == k then (k, v) else e)
  else store ++ [(k, v)]

/-- Translation of `videoRenderingService.getJobStatus`: the job record
under the id, or `undefined` (`none`) when the id is unknown. -/
def getJobStatus (store : JobStore) (jobId : String) : Option RenderJob :=
  (store.find? (fun e => e.1 == jobId)).map (fun e => e.2)

/-- Translation of `videoRenderingService.startRender`: registers the
initial `queued` record under `job_${Date.now()}` (`now` abstracts
`Date.now()`) and returns the job id.  The detached simulation task
then evolves the record as described by `renderTrace`. -/
def startRender (now : Nat) (project : Project) (store : JobStore) :
    JobStore × String :=
  let jobId := "job_" ++ toString now
  (jsSetKey store jobId (initialJob jobId project), jobId)

theorem getJobStatus_jsSetKey (store : JobStore) (k : String) (v : RenderJob) :
    getJobStatus (jsSetKey store k v) k = some v := by
  induction store with
  | nil => simp [jsSetKey, getJobStatus]
  | cons e es ih =>
    by_cases he : e.1 = k
    · simp [jsSetKey, getJobStatus, List.any_cons, he]
    · have he' : (e.1 == k) = false := by simp [he]
      have hstep : jsSetKey (e :: es) k v = e :: jsSetKey es k v := by
        by_cases hes : es.any (fun x => x.1 == k) = true
        · simp only [jsSetKey, List.any_cons, he', Bool.false_or, hes,
            if_true, List.map_cons]
          rw [if_neg (by simp [he])]
        · simp only [Bool.not_eq_true] at hes
          simp [jsSetKey, List.any_cons, he', hes]
      have hcons : getJobStatus (e :: jsSetKey es k v) k =
          getJobStatus (jsSetKey es k v) k := by
        rw [getJobStatus, getJobStatus,
          List.find?_cons_of_neg _ (by simp [he])]
      rw [hstep, hcons]
      exact ih

/-- C3.  `getJobStatus` returns `none` — not an error — for any id that
no entry of the store carries; any `some` answer is the record
currently stored under that id (a snapshot of the live record); and
immediately after `startRender` the returned id maps to the initial
`queued` job record. -/
theorem getJobStatus_spec (store : JobStore) (jobId : String)
    (project : Project) (now : Nat) :
    ((∀ e ∈ store, e.1 ≠ jobId) → getJobStatus store jobId = none) ∧
    (∀ j, getJobStatus store jobId = some j → (jobId, j) ∈ store) ∧
    (getJobStatus (startRender now project store).1
        (startRender now project store).2 =
      some (initialJob ("job_" ++ toString now) project)) := by
  refine ⟨?_, ?_, ?_⟩
  · intro h
    have hfind : store.find? (fun e => e.1 == jobId) = none :=
      List.find?_eq_none.mpr (fun e he => by simpa using h e he)
    rw [getJobStatus, hfind]
    rfl
  · intro j hj
    rw [getJobStatus] at hj
    cases hfind : store.find? (fun e => e.1 == jobId) with
    | none => rw [hfind] at hj; simp at hj
    | some e =>
      obtain ⟨e1, e2⟩ := e
      rw [hfind] at hj
      simp at hj
      have hp := List.find?_some hfind
      have hmem := List.mem_of_find?_eq_some hfind
      have he1 : e1 = jobId := by simpa using hp
      subst he1
      subst hj
      simpa using hmem
  · exact getJobStatus_jsSetKey store _ _

/-- C3 witness: on the empty store, an unknown id yields `none`, and a
fresh `startRender` makes its returned id resolve to the initial job
record. -/
theorem getJobStatus_spec_witness :
    getJobStatus [] ("job_404") = none ∧
    getJobStatus (startRender 7 wProjectA []).1 (startRender 7 wProjectA []).2 =
      some (initialJob ("job_" ++ toString 7) wProjectA) := by
  have h := getJobStatus_spec [] ("job_404") wProjectA 7
  exact ⟨h.1 (by simp), h.2.2⟩

/-! ## Script generation durations (src/services/geminiService.ts)

`generateScript` and `parseManualScript` map the model's raw scenes
(pairs of narration text and visual prompt) to `Scene` records; the
fallback of `parseManualScript` chunks the raw input on newline runs.
All three paths compute `duration` as
`Math.max(3, text.split(' ').length / 2.5)`. -/

/-- A raw scene as returned by the generation backend:
`{text, visualPrompt}`. -/
structure RawScene where
  text : String
  visualPrompt : String
  deriving DecidableEq

/-- Character-level splitter used to model JS `split(sep)` for a
one-character separator: no run merging, `"".split(sep) = [""]`, and
consecutive separators contribute empty chunks. -/
def splitOnCharAux (sep : Char) : List Char → List Char → List String
  | [], acc => [String.mk acc.reverse]
  | c :: rest, acc =>
    if c = sep then String.mk acc.reverse :: splitOnCharAux sep rest []
    else splitOnCharAux sep rest (c :: acc)

/-- JS `s.split(sep)` for a one-character separator. -/
def jsSplit (sep : Char) (s : String) : List String :=
  splitOnCharAux sep s.data []

/-- JS `s.trim()`: strip whitespace from both ends. -/
def jsTrim (s : String) : String :=
  String.mk (((s.data.dropWhile Char.isWhitespace).reverse.dropWhile
    Char.isWhitespace).reverse)

/-- JS `s.substring(0, n)`: the first `n` characters. -/
def jsTake (s : String) (n : Nat) : String := String.mk (s.data.take n)

/-- Translation of the repeated duration expression
`Math.max(3, text.split(' ').length / 2.5)`. -/
def estimateDuration (text : String) : ℚ :=
  max 3 (((jsSplit (' ') text).length : ℚ) / (2.5 : ℚ))

/-- Translation of the scene mapping in `generateScript` (the AI path);
`nowMs` abstracts `Date.now()`. -/
def generateScriptScenes (nowMs : Nat) (rawScenes : List RawScene) :
    List Scene :=
  rawScenes.enum.map (fun e =>
    { id := "scene-" ++ toString nowMs ++ "-" ++ toString e.1,
      text := e.2.text,
      visualPrompt := some e.2.visualPrompt,
      duration := estimateDuration e.2.text,
      isGeneratingImage := false,
      isGeneratingAudio := false,
      mediaType := .image,
      imageUrl := none, stockVideoUrl := none, audioUrl := none })

/-- Translation of the scene mapping in `parseManualScript` (AI path). -/
def parseManualScriptScenes (nowMs : Nat) (rawScenes : List RawScene) :
    List Scene :=
  rawScenes.enum.map (fun e =>
    { id := "scene-manual-" ++ toString nowMs ++ "-" ++ toString e.1,
      text := e.2.text,
      visualPrompt := some e.2.visualPrompt,
      duration := estimateDuration e.2.text,
      isGeneratingImage := false,
      isGeneratingAudio := false,
      mediaType := .image,
      imageUrl := none, stockVideoUrl := none, audioUrl := none })

/-- Split on maximal runs of newlines, the JS `split(/\n+/)`: a run of
consecutive `'\n'` characters is one separator.  `skipping = true`
means the previous character belonged to a separator run, so further
newlines are absorbed into it. -/
def splitRunsGo : Bool → List Char → List Char → List String
  | false, [], acc => [String.mk acc.reverse]
  | true, [], _ => [""]
  | false, c :: rest, acc =>
    if c = '\n' then String.mk acc.reverse :: splitRunsGo true rest []
    else splitRunsGo false rest (c :: acc)
  | true, c :: rest, acc =>
    if c = '\n' then splitRunsGo true rest acc
    else splitRunsGo false rest [c]

/-- JS `fullText.split(/\n+/)`. -/
def splitOnNewlineRuns (s : String) : List String :=
  splitRunsGo false s.data []

/-- Translation of the fallback branch of `parseManualScript`: chunk the
raw text on newline runs, drop blank chunks, and build scenes.  The
scene's narration text is the *trimmed* chunk, while `duration` is
computed from the *untrimmed* chunk (`text.split(' ')` before
`text.trim()` is assigned). -/
def parseManualScriptFallback (fullText : String) : List Scene :=
  let chunks := (splitOnNewlineRuns fullText).filter
    (fun t => (jsTrim t).length > 0)
  chunks.enum.map (fun e =>
    { id := "scene-manual-fallback-" ++ toString e.1,
      text := jsTrim e.2,
      visualPrompt := some ("Visual representation of: " ++
        jsTake e.2 50 ++ "..."),
      duration := estimateDuration e.2,
      isGeneratingImage := false,
      isGeneratingAudio := false,
      mediaType := .image,
      imageUrl := none, stockVideoUrl := none, audioUrl := none })

/-! ### C5: duration = max(3, wordCount / 2.5) -/

/-- C5 counterexample.  In the newline-chunking fallback the duration is
computed from the raw chunk but the stored narration text is the
trimmed chunk, so for the input `" a b c d e f g h"` (a leading space:
9 split chunks but 8 words in the stored text) the stored duration is
`9 / 2.5 = 3.6`, not `max(3, wordCount(text)/2.5) = 3.2` for the
scene's own text.  This refutes the claim that the stored duration
always equals the formula applied to the scene's narration text. -/
theorem estimateDuration_counterexample :
    ¬ (∀ s ∈ parseManualScriptFallback (" a b c d e f g h"),
        s.duration = estimateDuration s.text) := by
  intro h
  have hh : (parseManualScriptFallback (" a b c d e f g h")).head? =
      some ((parseManualScriptFallback (" a b c d e f g h")).head?.getD
        wScene) := rfl
  have hs := h _ (mem_of_head? hh)
  have ht : ((parseManualScriptFallback (" a b c d e f g h")).head?.getD
      wScene).text = "a b c d e f g h" := rfl
  have hd : ((parseManualScriptFallback (" a b c d e f g h")).head?.getD
      wScene).duration = estimateDuration (" a b c d e f g h") := rfl
  rw [ht, hd] at hs
  have h9 : estimateDuration (" a b c d e f g h") =
      max 3 (((9 : Nat) : ℚ) / (2.5 : ℚ)) := rfl
  have h8 : estimateDuration ("a b c d e f g h") =
      max 3 (((8 : Nat) : ℚ) / (2.5 : ℚ)) := rfl
  rw [h9, h8, max_eq_right (by push_cast; norm_num),
    max_eq_right (by push_cast; norm_num)] at hs
  exact absurd hs (by push_cast; norm_num)

/-- C5 (amended).  In both AI paths the stored duration is exactly
`max(3, text.split(' ').length / 2.5)` of the scene's narration text;
in the newline-chunking fallback it is that formula applied to the raw
(untrimmed) chunk whose trimmed form is the scene's text — equal
whenever trimming does not change the split count, but in general
computed before trimming.  In all paths the duration is `≥ 3`, and the
estimate of the empty text is exactly 3. -/
theorem estimateDuration_spec (nowMs : Nat) (raws : List RawScene)
    (fullText : String) :
    (∀ s ∈ generateScriptScenes nowMs raws,
      s.duration = estimateDuration s.text) ∧
    (∀ s ∈ parseManualScriptScenes nowMs raws,
      s.duration = estimateDuration s.text) ∧
    (∀ s ∈ parseManualScriptFallback fullText, 3 ≤ s.duration ∧
      ∃ chunk ∈ (splitOnNewlineRuns fullText).filter
          (fun t => (jsTrim t).length > 0),
        s.text = jsTrim chunk ∧ s.duration = estimateDuration chunk) ∧
    (∀ text, 3 ≤ estimateDuration text) ∧
    estimateDuration ("") = 3 := by
  refine ⟨?_, ?_, ?_, ?_, ?_⟩
  · intro s hs
    obtain ⟨e, _, rfl⟩ := List.mem_map.mp hs
    rfl
  · intro s hs
    obtain ⟨e, _, rfl⟩ := List.mem_map.mp hs
    rfl
  · intro s hs
    obtain ⟨⟨i, c⟩, he, rfl⟩ := List.mem_map.mp hs
    have he' : (i, c) ∈ List.enumFrom 0
        ((splitOnNewlineRuns fullText).filter
          (fun t => (jsTrim t).length > 0)) := by
      simpa [List.enum] using he
    obtain ⟨-, -, hc⟩ := List.mem_enumFrom he'
    refine ⟨le_max_left _ _, c, ?_, rfl, rfl⟩
    exact hc ▸ List.getElem_mem _
  · intro text
    exact le_max_left _ _
  · have h1 : estimateDuration ("") = max 3 (((1 : Nat) : ℚ) / (2.5 : ℚ)) :=
      rfl
    rw [h1, max_eq_left (by push_cast; norm_num)]

/-- C5 witness: a concrete AI-path scene satisfies the formula on its
own text, the fallback on `"x\n y z\n"` produces a scene whose duration
is the formula on the raw chunk, and the boundary facts hold. -/
theorem estimateDuration_spec_witness :
    (∀ s ∈ generateScriptScenes 0 [⟨"hi there", "v"⟩],
      s.duration = estimateDuration s.text) ∧
    (∃ s ∈ parseManualScriptFallback ("x\n y z\n"), 3 ≤ s.duration) ∧
    estimateDuration ("") = 3 := by
  have h := estimateDuration_spec 0 [⟨"hi there", "v"⟩] ("x\n y z\n")
  refine ⟨h.1, ?_, h.2.2.2.2⟩
  have hmem : (parseManualScriptFallback ("x\n y z\n")).head? =
      some ((parseManualScriptFallback ("x\n y z\n")).head?.getD wScene) := rfl
  exact ⟨_, mem_of_head? hmem, (h.2.2.1 _ (mem_of_head? hmem)).1⟩

/-! ## Mock stock search (src/services/stockMediaService.ts)

With no Pexels/Pixabay key, `searchVideos` falls back to substring tag
matching over the fixed `MOCK_VIDEOS` catalog; when nothing matches it
returns `MOCK_VIDEOS.sort(() => 0.5 - Math.random()).slice(0, 3)` — a
random permutation's first three entries, modelled by a `shuffled`
parameter constrained to be a permutation of the catalog. -/

/-- One entry of the mock catalog. -/
structure MockVideo where
  id : Nat
  url : String
  tags : List String
  deriving DecidableEq, Inhabited

/-- Translation of `StockResult` from stockMediaService.ts (`duration` is a JS
number; the mock path always uses 15). -/
structure StockResult where
  id : Nat
  thumbnail : String
  videoUrl : String
  duration : ℚ
  provider : String
  deriving DecidableEq

/-- The fixed mock catalog `MOCK_VIDEOS`. -/
def MOCK_VIDEOS : List MockVideo :=
  [{ id := 1, url := "https://cdn.coverr.co/videos/coverr-walking-in-a-coniferous-forest-5426/1080p.mp4",
     tags := ["forest", "nature", "trees", "walking"] },
   { id := 2, url := "https://cdn.coverr.co/videos/coverr-cloudy-sky-2751/1080p.mp4",
     tags := ["sky", "clouds", "blue", "weather"] },
   { id := 3, url := "https://cdn.coverr.co/videos/coverr-working-on-a-laptop-374/1080p.mp4",
     tags := ["technology", "computer", "work", "office", "coding"] },
   { id := 4, url := "https://cdn.coverr.co/videos/coverr-city-traffic-at-night-9092/1080p.mp4",
     tags := ["city", "traffic", "night", "urban"] },
   { id := 5, url := "https://cdn.coverr.co/videos/coverr-people-talking-in-a-meeting-5346/1080p.mp4",
     tags := ["business", "meeting", "people", "discussion"] },
   { id := 6, url := "https://cdn.coverr.co/videos/coverr-reading-a-book-in-a-library-5501/1080p.mp4",
     tags := ["education", "book", "library", "reading"] },
   { id := 7, url := "https://cdn.coverr.co/videos/coverr-robot-arm-4974/1080p.mp4",
     tags := ["tech", "robot", "future", "ai"] },
   { id := 8, url := "https://cdn.coverr.co/videos/coverr-waves-crashing-on-rocks-5444/1080p.mp4",
     tags := ["sea", "ocean", "waves", "water"] }]

/-- Whether `pat` occurs at the start of `l`. -/
def startsWithChars : List Char → List Char → Bool
  | [], _ => true
  | _ :: _, [] => false
  | c :: cs, d :: ds => c == d && startsWithChars cs ds

/-- Whether `pat` occurs contiguously anywhere in the second list. -/
def containsChars (pat : List Char) : List Char → Bool
  | [] => startsWithChars pat []
  | c :: rest => startsWithChars pat (c :: rest) || containsChars pat rest

/-- JS `s.includes(pat)`. -/
def jsIncludes (s pat : String) : Bool := containsChars pat.data s.data

/-- JS `s.toLowerCase()` (character-wise lowering). -/
def jsToLower (s : String) : String := String.mk (s.data.map Char.toLower)

/-- Mock-path `StockResult` built from a catalog entry. -/
def toMockResult (v : MockVideo) : StockResult :=
  { id := v.id, thumbnail := "", videoUrl := v.url, duration := 15,
    provider := "Mock" }

/-- Translation of the mock fallback of `searchVideos`:
tag-substring matching against the lower-cased query, with a shuffled
3-sample of the catalog when nothing matches. -/
def searchVideosMock (query : String) (shuffled : List MockVideo) :
    List StockResult :=
  let lowerQuery := jsToLower query
  let matched := MOCK_VIDEOS.filter
    (fun v => v.tags.any (fun tag => jsIncludes lowerQuery tag))
  let results := if matched.length > 0 then matched else shuffled.take 3
  results.map toMockResult

theorem searchVideosMock_eq (query : String) (shuffled : List MockVideo) :
    searchVideosMock query shuffled =
      if (MOCK_VIDEOS.filter (fun v => v.tags.any
          (fun tag => jsIncludes (jsToLower query) tag))).length > 0
      then (MOCK_VIDEOS.filter (fun v => v.tags.any
          (fun tag => jsIncludes (jsToLower query) tag))).map toMockResult
      else (shuffled.take 3).map toMockResult := by
  simp only [searchVideosMock]
  exact apply_ite (List.map toMockResult) _ _ _

/-! ### C7: the mock path never returns an empty result -/

/-- C7.  For any query and any shuffle of the catalog: the mock search
result is never empty; whenever the lower-cased query contains some tag
of a catalog video, the result contains the entry built from a catalog
video carrying that tag; and when no catalog tag occurs in the query
the result is the 3-element sample of the shuffled catalog (in
particular of length ≤ 3, and still non-empty). -/
theorem searchVideosMock_spec (query : String) (shuffled : List MockVideo)
    (hperm : shuffled.Perm MOCK_VIDEOS) :
    searchVideosMock query shuffled ≠ [] ∧
    (∀ v ∈ MOCK_VIDEOS, ∀ tag ∈ v.tags,
      jsIncludes (jsToLower query) tag = true →
      ∃ r ∈ searchVideosMock query shuffled, ∃ w ∈ MOCK_VIDEOS,
        r = toMockResult w ∧ tag ∈ w.tags) ∧
    ((∀ v ∈ MOCK_VIDEOS, ∀ tag ∈ v.tags,
        jsIncludes (jsToLower query) tag = false) →
      searchVideosMock query shuffled = (shuffled.take 3).map toMockResult ∧
      (searchVideosMock query shuffled).length ≤ 3) := by
  have hlen : shuffled.length = 8 := by
    rw [hperm.length_eq]
    rfl
  refine ⟨?_, ?_, ?_⟩
  · rw [searchVideosMock_eq]
    by_cases hm : (MOCK_VIDEOS.filter (fun v => v.tags.any
        (fun tag => jsIncludes (jsToLower query) tag))).length > 0
    · rw [if_pos hm]
      intro hcon
      rw [List.map_eq_nil_iff] at hcon
      rw [hcon] at hm
      simp at hm
    · rw [if_neg hm]
      intro hcon
      rw [List.map_eq_nil_iff] at hcon
      have h3 : (shuffled.take 3).length = 3 := by
        rw [List.length_take, hlen]
        rfl
      rw [hcon] at h3
      simp at h3
  · intro v hv tag htag hinc
    have hvmatch : v ∈ MOCK_VIDEOS.filter (fun w => w.tags.any
        (fun t => jsIncludes (jsToLower query) t)) := by
      rw [List.mem_filter]
      exact ⟨hv, by
        rw [List.any_eq_true]
        exact ⟨tag, htag, hinc⟩⟩
    have hpos : (MOCK_VIDEOS.filter (fun w => w.tags.any
        (fun t => jsIncludes (jsToLower query) t))).length > 0 :=
      List.length_pos_of_mem hvmatch
    refine ⟨toMockResult v, ?_, v, hv, rfl, htag⟩
    rw [searchVideosMock_eq, if_pos hpos]
    exact List.mem_map_of_mem _ hvmatch
  · intro hnone
    have hm : (MOCK_VIDEOS.filter (fun v => v.tags.any
        (fun tag => jsIncludes (jsToLower query) tag))) = [] := by
      rw [List.filter_eq_nil_iff]
      intro v hv
      rw [Bool.not_eq_true, List.any_eq_false]
      intro tag htag
      rw [hnone v hv tag htag]
      simp
    have hm0 : ¬ ((MOCK_VIDEOS.filter (fun v => v.tags.any
        (fun tag => jsIncludes (jsToLower query) tag))).length > 0) := by
      rw [hm]
      simp
    rw [searchVideosMock_eq, if_neg hm0]
    refine ⟨rfl, ?_⟩
    rw [List.length_map, List.length_take, hlen]
    omega

/-- C7 witness: with the identity shuffle and query `"forest"`, the mock
search is non-empty and contains the forest catalog entry (the
permutation and tag-containment hypotheses are discharged
concretely). -/
theorem searchVideosMock_spec_witness :
    searchVideosMock ("forest") MOCK_VIDEOS ≠ [] ∧
    (∃ r ∈ searchVideosMock ("forest") MOCK_VIDEOS, ∃ w ∈ MOCK_VIDEOS,
      r = toMockResult w ∧ "forest" ∈ w.tags) := by
  have h := searchVideosMock_spec ("forest") MOCK_VIDEOS (List.Perm.refl _)
  refine ⟨h.1, ?_⟩
  refine h.2.1 (MOCK_VIDEOS.headI) ?_ ("forest") ?_ ?_
  · rw [MOCK_VIDEOS]
    simp [List.headI]
  · rw [MOCK_VIDEOS]
    simp [List.headI]
  · rfl

/-! ## SRT export (subtitleService.generateSRT)

`formatTime` sets the milliseconds of the epoch date to
`seconds * 1000` — JS `setMilliseconds` clips the time value to an
integer (truncation, i.e. floor for the non-negative inputs at hand) —
and renders `toISOString().substr(11, 12)` with the dot replaced by a
comma: zero-padded `HH:MM:SS,mmm` of the time of day. -/

/-- Two-digit zero-padded decimal rendering (`n < 100`). -/
def pad2 (n : Nat) : String :=
  String.mk [Nat.digitChar (n / 10 % 10), Nat.digitChar (n % 10)]

/-- Three-digit zero-padded decimal rendering (`n < 1000`). -/
def pad3 (n : Nat) : String :=
  String.mk [Nat.digitChar (n / 100 % 10), Nat.digitChar (n / 10 % 10),
    Nat.digitChar (n % 10)]

/-- The integer millisecond value of `seconds * 1000` (JS `TimeClip`
truncation; floor on the non-negative values the claim covers). -/
def jsMsOf (seconds : ℚ) : Nat := (Int.floor (seconds * 1000)).toNat

/-- Rendering `HH:MM:SS,mmm` of the time of day for `ms` epoch milliseconds. -/
def fmtMs (ms : Nat) : String :=
  pad2 (ms / 3600000 % 24) ++ (":") ++ pad2 (ms / 60000 % 60) ++ (":") ++
    pad2 (ms / 1000 % 60) ++ (",") ++ pad3 (ms % 1000)

/-- Translation of the `formatTime` helper of `generateSRT`. -/
def formatTime (seconds : ℚ) : String := fmtMs (jsMsOf seconds)

/-- JS `Array.prototype.join('\n')`. -/
def joinLines : List String → String
  | [] => ""
  | [a] => a
  | a :: b :: rest => a ++ ("\n") ++ joinLines (b :: rest)

/-- One SRT block: 1-based index line, timing line, text, and the
block-final newline (template
`${index + 1}\n${t1} --> ${t2}\n${text}\n`). -/
def srtBlock (idx : Nat) (sub : Subtitle) : String :=
  toString idx ++ ("\n") ++ formatTime sub.startTime ++ (" --> ") ++
    formatTime sub.endTime ++ ("\n") ++ sub.text ++ ("\n")

/-- Translation of `subtitleService.generateSRT`:
`subtitles.map((sub, index) => block).join('\n')`. -/
def generateSRT (subs : List Subtitle) : String :=
  joinLines (subs.enum.map (fun e => srtBlock (e.1 + 1) e.2))

/-! ### An SRT parser for the round-trip property

Modelled from the spec: the repository emits SRT but contains no SRT
parser; the round-trip property ("generateSRT followed by parsing
reproduces the triples") quantifies over a standard parser of the
documented format — blocks of an index line, a timing line
`HH:MM:SS,mmm --> HH:MM:SS,mmm`, text lines, separated by a blank
line.  The parser below reads exactly that format (ignoring the index
line's value, as SRT consumers conventionally do) and rejects anything
malformed. -/

/-- Modelled from the spec: decimal digit value of a character. -/
def dval (c : Char) : Option Nat :=
  if ('0') ≤ c ∧ c ≤ ('9') then some (c.toNat - ('0').toNat) else none

/-- Modelled from the spec: two fixed digits. -/
def parse2Digits : List Char → Option (Nat × List Char)
  | a :: b :: rest =>
    (match dval a, dval b with
     | some x, some y => some (x * 10 + y, rest)
     | _, _ => none)
  | _ => none

/-- Modelled from the spec: three fixed digits. -/
def parse3Digits : List Char → Option (Nat × List Char)
  | a :: b :: c :: rest =>
    (match dval a, dval b, dval c with
     | some x, some y, some z => some (x * 100 + y * 10 + z, rest)
     | _, _, _ => none)
  | _ => none

/-- Modelled from the spec: one expected literal character. -/
def expectChar (c : Char) : List Char → Option (List Char)
  | d :: rest => if d = c then some rest else none
  | [] => none

/-- Modelled from the spec: a `HH:MM:SS,mmm` timestamp, in seconds. -/
def parseTimeChars (l : List Char) : Option (ℚ × List Char) :=
  match parse2Digits l with
  | none => none
  | some (hh, l1) =>
    match expectChar (':') l1 with
    | none => none
    | some l2 =>
      match parse2Digits l2 with
      | none => none
      | some (mm, l3) =>
        match expectChar (':') l3 with
        | none => none
        | some l4 =>
          match parse2Digits l4 with
          | none => none
          | some (ss, l5) =>
            match expectChar (',') l5 with
            | none => none
            | some l6 =>
              match parse3Digits l6 with
              | none => none
              | some (mmm, l7) =>
                some (((hh * 3600000 + mm * 60000 + ss * 1000 + mmm :
                  Nat) : ℚ) / 1000, l7)

/-- Modelled from the spec: a full `start --> end` timing line. -/
def parseTimingLine (l : List Char) : Option (ℚ × ℚ) :=
  match parseTimeChars l with
  | none => none
  | some (t1, rest) =>
    match rest with
    | ' ' :: '-' :: '-' :: '>' :: ' ' :: rest2 =>
      (match parseTimeChars rest2 with
       | some (t2, []) => some (t1, t2)
       | _ => none)
    | _ => none

/-- Split a character list on `'\n'` (one chunk per line). -/
def splitLinesChars : List Char → List (List Char)
  | [] => [[]]
  | c :: rest =>
    if c = '\n' then [] :: splitLinesChars rest
    else
      match splitLinesChars rest with
      | [] => [[c]]
      | l :: ls => (c :: l) :: ls

/-- Parser state: between blocks, after an index line, or collecting
text lines of a block whose timing line has been read. -/
inductive SrtMode where
  | boundary
  | afterIdx
  | inText (t1 t2 : ℚ) (rev : List (List Char))

/-- Finish a block: text lines are rejoined with newlines. -/
def srtFinish (t1 t2 : ℚ) (rev : List (List Char)) : ℚ × ℚ × String :=
  (t1, t2, joinLines (rev.reverse.map String.mk))

/-- Modelled from the spec: the block parser, one line at a time. -/
def srtLoop : List (List Char) → SrtMode → List (ℚ × ℚ × String) →
    Option (List (ℚ × ℚ × String))
  | [], .boundary, out => some out.reverse
  | [], .afterIdx, _ => none
  | [], .inText t1 t2 rev, out => some ((srtFinish t1 t2 rev :: out).reverse)
  | line :: rest, .boundary, out =>
    if line.isEmpty then srtLoop rest .boundary out
    else srtLoop rest .afterIdx out
  | line :: rest, .afterIdx, out =>
    (match parseTimingLine line with
     | none => none
     | some (t1, t2) => srtLoop rest (.inText t1 t2 []) out)
  | line :: rest, .inText t1 t2 rev, out =>
    if line.isEmpty then srtLoop rest .boundary (srtFinish t1 t2 rev :: out)
    else srtLoop rest (.inText t1 t2 (line :: rev)) out

/-- Modelled from the spec: parse an SRT document into
`(startTime, endTime, text)` triples. -/
def parseSRT (s : String) : Option (List (ℚ × ℚ × String)) :=
  srtLoop (splitLinesChars s.data) .boundary []

/-- The millisecond rounding `generateSRT` applies to a time value. -/
def msRound (t : ℚ) : ℚ := ((jsMsOf t : Nat) : ℚ) / 1000

/-! ### Digit and timestamp formatting lemmas -/

theorem dval_digitChar (n : Nat) (h : n < 10) :
    dval (Nat.digitChar n) = some n := by
  interval_cases n <;> decide

theorem digitChar_ne_newline (n : Nat) : Nat.digitChar n ≠ '\n' := by
  rcases Nat.lt_or_ge n 16 with h | h
  · interval_cases n <;> decide
  · have h16 : Nat.digitChar n = '*' := by
      unfold Nat.digitChar
      iterate 16 rw [if_neg (by omega)]
    rw [h16]
    decide

theorem parse2Digits_pad2 (n : Nat) (h : n < 100) (rest : List Char) :
    parse2Digits ((pad2 n).data ++ rest) = some (n, rest) := by
  have h1 : n / 10 % 10 < 10 := Nat.mod_lt _ (by omega)
  have h2 : n % 10 < 10 := Nat.mod_lt _ (by omega)
  have hd : (pad2 n).data ++ rest =
      Nat.digitChar (n / 10 % 10) :: Nat.digitChar (n % 10) :: rest := rfl
  rw [hd]
  simp only [parse2Digits, dval_digitChar _ h1, dval_digitChar _ h2]
  have hv : n / 10 % 10 * 10 + n % 10 = n := by omega
  rw [hv]

theorem parse3Digits_pad3 (n : Nat) (h : n < 1000) (rest : List Char) :
    parse3Digits ((pad3 n).data ++ rest) = some (n, rest) := by
  have h1 : n / 100 % 10 < 10 := Nat.mod_lt _ (by omega)
  have h2 : n / 10 % 10 < 10 := Nat.mod_lt _ (by omega)
  have h3 : n % 10 < 10 := Nat.mod_lt _ (by omega)
  have hd : (pad3 n).data ++ rest =
      Nat.digitChar (n / 100 % 10) :: Nat.digitChar (n / 10 % 10) ::
        Nat.digitChar (n % 10) :: rest := rfl
  rw [hd]
  simp only [parse3Digits, dval_digitChar _ h1, dval_digitChar _ h2,
    dval_digitChar _ h3]
  have hv : n / 100 % 10 * 100 + n / 10 % 10 * 10 + n % 10 = n := by omega
  rw [hv]

theorem expectChar_cons_self (c : Char) (rest : List Char) :
    expectChar c (c :: rest) = some rest := by
  simp [expectChar]

theorem parseTimeChars_fmtMs (ms : Nat) (h : ms < 86400000)
    (rest : List Char) :
    parseTimeChars ((fmtMs ms).data ++ rest) = some ((ms : ℚ) / 1000, rest) := by
  have hdata : (fmtMs ms).data ++ rest =
      (pad2 (ms / 3600000 % 24)).data ++ (':' ::
        ((pad2 (ms / 60000 % 60)).data ++ (':' ::
          ((pad2 (ms / 1000 % 60)).data ++ (',' ::
            ((pad3 (ms % 1000)).data ++ rest)))))) := by
    simp [fmtMs, String.data_append, List.append_assoc]
  have ha : ms / 3600000 % 24 < 100 := by omega
  have hb : ms / 60000 % 60 < 100 := by omega
  have hc : ms / 1000 % 60 < 100 := by omega
  have hd : ms % 1000 < 1000 := by omega
  rw [hdata]
  simp only [parseTimeChars, parse2Digits_pad2 _ ha, expectChar_cons_self,
    parse2Digits_pad2 _ hb, parse2Digits_pad2 _ hc, parse3Digits_pad3 _ hd]
  have hv : ms / 3600000 % 24 * 3600000 + ms / 60000 % 60 * 60000 +
      ms / 1000 % 60 * 1000 + ms % 1000 = ms := by omega
  rw [hv]

theorem fmtMs_no_newline (ms : Nat) : '\n' ∉ (fmtMs ms).data := by
  intro hmem
  have hd : (fmtMs ms).data =
      [Nat.digitChar (ms / 3600000 % 24 / 10 % 10),
       Nat.digitChar (ms / 3600000 % 24 % 10), ':',
       Nat.digitChar (ms / 60000 % 60 / 10 % 10),
       Nat.digitChar (ms / 60000 % 60 % 10), ':',
       Nat.digitChar (ms / 1000 % 60 / 10 % 10),
       Nat.digitChar (ms / 1000 % 60 % 10), ',',
       Nat.digitChar (ms % 1000 / 100 % 10),
       Nat.digitChar (ms % 1000 / 10 % 10),
       Nat.digitChar (ms % 1000 % 10)] := rfl
  rw [hd] at hmem
  simp only [List.mem_cons, List.not_mem_nil, or_false] at hmem
  rcases hmem with h | h | h | h | h | h | h | h | h | h | h | h <;>
    first
      | exact digitChar_ne_newline _ h.symm
      | exact absurd h (by decide)

/-! ### `Nat.repr` produces a non-empty, newline-free digit string -/

theorem toDigitsCore_length_ge (b : Nat) :
    ∀ (fuel n : Nat) (ds : List Char),
      ds.length ≤ (Nat.toDigitsCore b fuel n ds).length := by
  intro fuel
  induction fuel with
  | zero => intro n ds; rw [Nat.toDigitsCore]
  | succ fuel ih =>
    intro n ds
    rw [Nat.toDigitsCore]
    by_cases hz : n / b = 0
    · simp only [hz, if_true, List.length_cons]
      omega
    · simp only [hz, if_false]
      have := ih (n / b) (Nat.digitChar (n % b) :: ds)
      simp only [List.length_cons] at this
      omega

theorem toDigitsCore_chars (b : Nat) :
    ∀ (fuel n : Nat) (ds : List Char), (∀ c ∈ ds, c ≠ '\n') →
      ∀ c ∈ Nat.toDigitsCore b fuel n ds, c ≠ '\n' := by
  intro fuel
  induction fuel with
  | zero => intro n ds hds; rw [Nat.toDigitsCore]; exact hds
  | succ fuel ih =>
    intro n ds hds
    rw [Nat.toDigitsCore]
    by_cases hz : n / b = 0
    · simp only [hz, if_true]
      intro c hc
      rcases List.mem_cons.mp hc with rfl | hmem
      · exact digitChar_ne_newline _
      · exact hds c hmem
    · simp only [hz, if_false]
      refine ih (n / b) _ ?_
      intro c hc
      rcases List.mem_cons.mp hc with rfl | hmem
      · exact digitChar_ne_newline _
      · exact hds c hmem

theorem repr_data_ne_nil (n : Nat) : (Nat.repr n).data ≠ [] := by
  have hrepr : (Nat.repr n).data = Nat.toDigitsCore 10 (n + 1) n [] := rfl
  rw [hrepr, Nat.toDigitsCore]
  by_cases hz : n / 10 = 0
  · simp [hz]
  · simp only [hz, if_false]
    intro hcon
    have := toDigitsCore_length_ge 10 n (n / 10)
      [Nat.digitChar (n % 10)]
    rw [hcon] at this
    simp at this

theorem repr_no_newline (n : Nat) : '\n' ∉ (Nat.repr n).data := by
  have hrepr : (Nat.repr n).data = Nat.toDigitsCore 10 (n + 1) n [] := rfl
  rw [hrepr]
  intro hmem
  exact toDigitsCore_chars 10 (n + 1) n [] (by simp) '\n' hmem rfl

/-! ### Line splitting -/

theorem splitLinesChars_append (a : List Char) (ha : '\n' ∉ a)
    (b : List Char) :
    splitLinesChars (a ++ '\n' :: b) = a :: splitLinesChars b := by
  induction a with
  | nil => simp [splitLinesChars]
  | cons c cs ih =>
    have hc : c ≠ '\n' := fun hcon => ha (by simp [hcon])
    have hcs : '\n' ∉ cs := fun hcon => ha (by simp [hcon])
    rw [List.cons_append, splitLinesChars, if_neg hc, ih hcs]

/-! ### The parser consumes one generated block at a time -/

theorem parseTimingLine_format (st et : ℚ) (hst0 : 0 ≤ st)
    (hst : st < 86400) (het0 : 0 ≤ et) (het : et < 86400) :
    parseTimingLine ((formatTime st ++ (" --> ") ++ formatTime et).data) =
      some (msRound st, msRound et) := by
  have hmslt : ∀ t : ℚ, 0 ≤ t → t < 86400 → jsMsOf t < 86400000 := by
    intro t ht0 ht
    have hfl : Int.floor (t * 1000) < (86400000 : Int) := by
      rw [Int.floor_lt]
      push_cast
      nlinarith
    have hfl0 : (0 : Int) ≤ Int.floor (t * 1000) := by
      rw [Int.le_floor]
      push_cast
      nlinarith
    rw [jsMsOf]
    omega
  have hdata : (formatTime st ++ (" --> ") ++ formatTime et).data =
      (fmtMs (jsMsOf st)).data ++ (' ' :: '-' :: '-' :: '>' :: ' ' ::
        ((fmtMs (jsMsOf et)).data ++ [])) := by
    simp [formatTime, String.data_append]
  rw [hdata]
  simp only [parseTimingLine, parseTimeChars_fmtMs _ (hmslt st hst0 hst),
    parseTimeChars_fmtMs _ (hmslt et het0 het)]
  rfl

theorem srtLoop_block (idx : List Char) (hidx : idx ≠ [])
    (timing : List Char) (t1 t2 : ℚ)
    (ht : parseTimingLine timing = some (t1, t2)) (text : List Char)
    (tail : List (List Char)) (out : List (ℚ × ℚ × String)) :
    srtLoop (idx :: timing :: text :: [] :: tail) SrtMode.boundary out =
      srtLoop tail SrtMode.boundary ((t1, t2, String.mk text) :: out) := by
  obtain ⟨c, cs, rfl⟩ := List.exists_cons_of_ne_nil hidx
  cases text with
  | nil =>
    simp only [srtLoop, ht, List.isEmpty_cons, List.isEmpty_nil,
      Bool.false_eq_true, if_false, if_true]
    rfl
  | cons c' cs' =>
    simp only [srtLoop, ht, List.isEmpty_cons, List.isEmpty_nil,
      Bool.false_eq_true, if_false, if_true]
    rfl

/-! ### C8: SRT round trip -/

theorem toString_nat_eq_repr (n : Nat) : (toString n : String) = Nat.repr n :=
  rfl

theorem string_mk_data (s : String) : String.mk s.data = s := rfl

theorem srt_roundTrip_from (subs : List Subtitle) :
    ∀ (k : Nat) (out : List (ℚ × ℚ × String)),
      (∀ s ∈ subs, 0 ≤ s.startTime ∧ s.startTime < 86400 ∧
        0 ≤ s.endTime ∧ s.endTime < 86400 ∧ '\n' ∉ s.text.data) →
      srtLoop (splitLinesChars (joinLines ((List.enumFrom k subs).map
          (fun e => srtBlock (e.1 + 1) e.2))).data) SrtMode.boundary out =
        some (out.reverse ++ subs.map
          (fun s => (msRound s.startTime, msRound s.endTime, s.text))) := by
  induction subs with
  | nil =>
    intro k out _
    rw [List.enumFrom_nil, List.map_nil]
    show srtLoop (splitLinesChars ("").data) SrtMode.boundary out = _
    rw [show splitLinesChars ("").data = [[]] from rfl]
    rw [show ∀ t o, srtLoop ([] :: t) SrtMode.boundary o =
        srtLoop t SrtMode.boundary o
      from fun t o => by simp [srtLoop]]
    simp [srtLoop]
  | cons s rest ih =>
    intro k out hvalid
    obtain ⟨hs0, hs1, he0, he1, htext⟩ := hvalid s (by simp)
    have hrest : ∀ s' ∈ rest, 0 ≤ s'.startTime ∧ s'.startTime < 86400 ∧
        0 ≤ s'.endTime ∧ s'.endTime < 86400 ∧ '\n' ∉ s'.text.data :=
      fun s' hs' => hvalid s' (by simp [hs'])
    have hblock : (srtBlock (k + 1) s).data =
        (Nat.repr (k + 1)).data ++ '\n' ::
          ((formatTime s.startTime ++ (" --> ") ++
            formatTime s.endTime).data ++ '\n' ::
            (s.text.data ++ [('\n')])) := by
      simp [srtBlock, String.data_append, List.append_assoc,
        toString_nat_eq_repr]
    have htiming := parseTimingLine_format s.startTime s.endTime hs0 hs1
      he0 he1
    have htimnl : '\n' ∉ (formatTime s.startTime ++ (" --> ") ++
        formatTime s.endTime).data := by
      intro hmem
      simp only [String.data_append, List.mem_append] at hmem
      rcases hmem with (hmem | hmem) | hmem
      · exact fmtMs_no_newline _ hmem
      · exact absurd hmem (by decide)
      · exact fmtMs_no_newline _ hmem
    cases rest with
    | nil =>
      rw [List.enumFrom_cons, List.enumFrom_nil, List.map_cons,
        List.map_nil]
      show srtLoop (splitLinesChars (srtBlock (k + 1) s).data)
          SrtMode.boundary out = _
      rw [hblock, splitLinesChars_append _ (repr_no_newline _),
        splitLinesChars_append _ htimnl,
        splitLinesChars_append _ htext]
      rw [show splitLinesChars [] = [[]] from rfl]
      rw [srtLoop_block _ (repr_data_ne_nil _) _ _ _ htiming]
      simp [srtLoop, string_mk_data]
    | cons s2 rest2 =>
      rw [List.enumFrom_cons, List.map_cons]
      have hjoin : joinLines (srtBlock (k + 1) s ::
          (List.enumFrom (k + 1) (s2 :: rest2)).map
            (fun e => srtBlock (e.1 + 1) e.2)) =
          srtBlock (k + 1) s ++ ("\n") ++
            joinLines ((List.enumFrom (k + 1) (s2 :: rest2)).map
              (fun e => srtBlock (e.1 + 1) e.2)) := by
        rw [List.enumFrom_cons, List.map_cons]
        rfl
      rw [hjoin]
      have hdata2 : (srtBlock (k + 1) s ++ ("\n") ++
          joinLines ((List.enumFrom (k + 1) (s2 :: rest2)).map
            (fun e => srtBlock (e.1 + 1) e.2))).data =
          (Nat.repr (k + 1)).data ++ '\n' ::
            ((formatTime s.startTime ++ (" --> ") ++
              formatTime s.endTime).data ++ '\n' ::
              (s.text.data ++ '\n' :: '\n' ::
                (joinLines ((List.enumFrom (k + 1) (s2 :: rest2)).map
                  (fun e => srtBlock (e.1 + 1) e.2))).data)) := by
        simp [srtBlock, String.data_append, List.append_assoc,
          toString_nat_eq_repr]
      rw [hdata2, splitLinesChars_append _ (repr_no_newline _),
        splitLinesChars_append _ htimnl, splitLinesChars_append _ htext]
      rw [show ∀ b, splitLinesChars ('\n' :: b) = [] :: splitLinesChars b
        from fun b => by simp [splitLinesChars]]
      rw [srtLoop_block _ (repr_data_ne_nil _) _ _ _ htiming]
      rw [ih (k + 1) _ hrest]
      simp [string_mk_data]

/-- The counterexample subtitle: a blank line inside the text. -/
def wSubtitleNL : Subtitle :=
  { id := "1", startTime := 0, endTime := 1, text := "a\n\nb" }

/-- The witness subtitle: a single-line text with fractional start. -/
def wSubtitleOK : Subtitle :=
  { id := "1", startTime := 1/2, endTime := 3, text := "Hello world" }

/-- C8 counterexample.  The claim constrains only the time values, but
round-tripping also needs the text to be a single line: for the
subtitle `(0, 1, "a\n\nb")` (times well inside 24 h) the emitted SRT
contains a blank line inside the text, which any parser of the
documented format reads as a block boundary — the parse does not
return the original triple (here the modelled parser rejects the
mangled second block outright). -/
theorem generateSRT_roundTrip_counterexample :
    (0 : ℚ) ≤ 0 ∧ (0 : ℚ) < 86400 ∧ (0 : ℚ) ≤ 1 ∧ (1 : ℚ) < 86400 ∧
    parseSRT (generateSRT [wSubtitleNL]) ≠
      some [((0 : ℚ), (1 : ℚ), "a\n\nb")] := by
  refine ⟨le_refl _, by norm_num, by norm_num, by norm_num, ?_⟩
  have hms0 : jsMsOf 0 = 0 := by
    rw [jsMsOf]
    norm_num
  have hms1 : jsMsOf 1 = 1000 := by
    rw [jsMsOf]
    norm_num
    rfl
  have hgen : generateSRT [wSubtitleNL] =
      ("1\n") ++ fmtMs (jsMsOf 0) ++ (" --> ") ++ fmtMs (jsMsOf 1) ++
        ("\na\n\nb\n") := rfl
  rw [hgen, hms0, hms1]
  rw [show fmtMs 0 = ("00:00:00,000") from rfl,
    show fmtMs 1000 = ("00:00:01,000") from rfl]
  intro hcon
  have : parseSRT (("1\n") ++ ("00:00:00,000") ++ (" --> ") ++
      ("00:00:01,000") ++ ("\na\n\nb\n")) = none := by decide
  rw [this] at hcon
  cases hcon

/-- C8 (amended).  For every subtitle list whose start and end times
are non-negative and below 24 hours *and whose texts are single lines
(no newline character — the format cannot represent multi-line or
blank-line-containing texts unambiguously)*, `generateSRT` emits one
block per subtitle (1-based index line, millisecond-precision timing
line, text, blank separator) and parsing the emitted document yields
exactly the `(startTime, endTime, text)` triples of the input with the
times rounded to whole milliseconds (`msRound`). -/
theorem generateSRT_roundTrip (subs : List Subtitle)
    (h : ∀ s ∈ subs, 0 ≤ s.startTime ∧ s.startTime < 86400 ∧
      0 ≤ s.endTime ∧ s.endTime < 86400 ∧ '\n' ∉ s.text.data) :
    parseSRT (generateSRT subs) =
      some (subs.map (fun s =>
        (msRound s.startTime, msRound s.endTime, s.text))) := by
  have hmain := srt_roundTrip_from subs 0 [] h
  rw [parseSRT, generateSRT]
  rw [show subs.enum = List.enumFrom 0 subs from rfl]
  rw [hmain]
  simp

/-- C8 witness: the single subtitle `(0.5, 3, "Hello world")` (all
hypotheses discharged concretely) round-trips to exactly
`(1/2, 3, "Hello world")`. -/
theorem generateSRT_roundTrip_witness :
    parseSRT (generateSRT [wSubtitleOK]) =
      some [((1 : ℚ)/2, (3 : ℚ), "Hello world")] := by
  have h := generateSRT_roundTrip [wSubtitleOK] (by
      intro s hs
      simp only [List.mem_singleton] at hs
      subst hs
      refine ⟨by norm_num [wSubtitleOK], by norm_num [wSubtitleOK],
        by norm_num [wSubtitleOK], by norm_num [wSubtitleOK], ?_⟩
      decide)
  rw [h]
  have hm1 : msRound (1/2) = (1 : ℚ)/2 := by
    rw [msRound, jsMsOf]
    norm_num
    rw [show Int.toNat 500 = 500 from rfl]
    norm_num
  have hm3 : msRound 3 = (3 : ℚ) := by
    rw [msRound, jsMsOf]
    norm_num
    rw [show Int.toNat 3000 = 3000 from rfl]
    norm_num
  simp only [List.map_cons, List.map_nil]
  rw [show wSubtitleOK.startTime = 1/2 from rfl,
    show wSubtitleOK.endTime = 3 from rfl,
    show wSubtitleOK.text = ("Hello world") from rfl, hm1, hm3]

end DocuGen
